import Mathlib

/-!
Shallow embedding of `src/main.rs` of the nda2ynab repository: a command-line
converter from Nordea bank CSV exports to YNAB CSV import format.

The filesystem and the CSV library are modelled at their natural boundaries:
the CSV deserializer hands the program a list of per-row parse results
(`Option NdaRow`), and the directory scan hands it a list of file names.
Everything downstream of those boundaries is translated from the source.
-/

namespace Nda2Ynab

/-- One parsed row of a Nordea CSV export (`struct NdaRow` in `main.rs`),
columns `Kirjauspäivä` (date), `Määrä` (amount), `Otsikko` (description).
Rust's derived `PartialEq` is structural equality on all three fields. -/
structure NdaRow where
  date : String
  amount : String
  description : String
  deriving DecidableEq, Repr

/-- One output row (`struct YnabRow` in `main.rs`). -/
structure YnabRow where
  date : String
  payee : String
  memo : String
  amount : String
  deriving DecidableEq, Repr

/-- `read_nda_csv` (`main.rs` lines 61-82), modelled from the point where the
CSV reader yields per-row deserialization results.  `.filter_map(|r| r.ok())`
keeps the successfully parsed rows; rows whose date field is the literal
`"Invalid date"` (authorisation holds) are then skipped.  The `println!`
logging does not affect the returned rows and is not modelled. -/
def read_nda_csv (parsed : List (Option NdaRow)) : List NdaRow :=
  (parsed.filterMap id).filter (fun r => !(r.date == "Invalid date"))

/-- Itertools' `positions`: indices (in ascending order) of the elements of
the list satisfying `p`, as used on `newest_rows` in `main.rs` line 154. -/
def positions (p : α → Bool) : List α → List Nat
  | [] => []
  | x :: xs =>
    if p x then 0 :: (positions p xs).map (· + 1)
    else (positions p xs).map (· + 1)

/-- `struct PrevFileNewestTransaction` in `main.rs`: the newest (first) row
of the previously processed CSV together with the number of identical rows
in that same file. -/
structure PrevFileNewestTransaction where
  transaction : NdaRow
  repetitions : Nat
  deriving DecidableEq, Repr

/-- The previous-file analysis in `main.rs` lines 130-143: take the first row
(erroring when the previous file has no usable rows) and count how many rows
identical to it exist in the whole file. -/
def prev_file_trx (rows : List NdaRow) : Except String PrevFileNewestTransaction :=
  match rows with
  | [] => .error "previous file does not contain any valid rows"
  | first_row :: rest =>
    .ok { transaction := first_row, repetitions := (first_row :: rest).count first_row }

/-- The cut-point computation of `main.rs` lines 153-184: with a previous
file present, collect the positions of rows equal to the previous file's
newest transaction (ascending); abort when fewer matches exist than
`repetitions`; otherwise reverse the iterator of matches and take its
`(repetitions - 1)`-th element (`Iterator::nth`). -/
def first_previously_processed_index (newest_rows : List NdaRow) :
    Option PrevFileNewestTransaction → Except String (Option Nat)
  | none => .ok none
  | some prev =>
    let positions_matches := positions (fun r => r == prev.transaction) newest_rows
    let match_count := positions_matches.length
    if match_count < prev.repetitions then
      .error "Aborting due to non-overlapping transactions in main and previous CSV files."
    else
      .ok positions_matches.reverse[prev.repetitions - 1]?

/-- `main.rs` lines 179-184: keep `newest_rows[0..idx]` when a cut index was
produced, the whole list otherwise. -/
def select_rows (newest_rows : List NdaRow) : Option Nat → List NdaRow
  | some idx => newest_rows.take idx
  | none => newest_rows

/-- The overlap resolution of `main` end to end: analyse the previous file's
rows when a previous file exists (`main.rs` lines 125-151), compute the cut
index, and slice the newest rows.  Each `?`-style early return of `main`
becomes an `Except.error` branch. -/
def resolve (newest_rows : List NdaRow) (prev_rows : Option (List NdaRow)) :
    Except String (List NdaRow) :=
  match prev_rows with
  | none => .ok (select_rows newest_rows none)
  | some rows =>
    match prev_file_trx rows with
    | .error e => .error e
    | .ok p =>
      match first_previously_processed_index newest_rows (some p) with
      | .error e => .error e
      | .ok idx => .ok (select_rows newest_rows idx)

/-- The output mapping of `main.rs` lines 193-200: one `YnabRow` per
surviving `NdaRow`, payee taken from the description, memo always empty,
date and amount passed through unmodified. -/
def to_ynab (r : NdaRow) : YnabRow :=
  { date := r.date, payee := r.description, memo := "", amount := r.amount }

/-- The rows serialized to `out.csv`, in order. -/
def write_ynab_rows (rows : List NdaRow) : List YnabRow :=
  rows.map to_ynab

/-- The whole pipeline downstream of CSV reading: resolve the overlap, then
map the surviving rows to the output schema. -/
def process (newest_rows : List NdaRow) (prev_rows : Option (List NdaRow)) :
    Except String (List YnabRow) :=
  (resolve newest_rows prev_rows).map write_ynab_rows

theorem positions_length (p : α → Bool) (l : List α) :
    (positions p l).length = l.countP p := by
  induction l with
  | nil => simp [positions]
  | cons x xs ih =>
    by_cases hx : p x <;> simp [positions, hx, List.countP_cons, ih]

theorem positions_mem_lt (p : α → Bool) (l : List α) :
    ∀ i ∈ positions p l, i < l.length := by
  induction l with
  | nil => simp [positions]
  | cons x xs ih =>
    intro i hi
    by_cases hx : p x <;> simp [positions, hx] at hi
    · rcases hi with rfl | ⟨j, hj, rfl⟩
      · simp
      · simpa using Nat.succ_lt_succ (ih j hj)
    · rcases hi with ⟨j, hj, rfl⟩
      simpa using Nat.succ_lt_succ (ih j hj)

theorem positions_cons_pos (p : α → Bool) (x : α) (xs : List α) (hx : p x = true) :
    positions p (x :: xs) = 0 :: (positions p xs).map (· + 1) := by
  simp [positions, hx]

theorem reverse_getElem?_sub (l : List Nat) (k : Nat) (hk1 : 1 ≤ k) (hk : k ≤ l.length) :
    l.reverse[k - 1]? = l[l.length - k]? := by
  rw [List.getElem?_reverse (by omega)]
  congr 1
  omega

theorem fppi_of_le (newest : List NdaRow) (a : NdaRow) (k : Nat)
    (h1 : 1 ≤ k) (h2 : k ≤ (positions (fun r => r == a) newest).length) :
    first_previously_processed_index newest (some ⟨a, k⟩) =
      .ok (positions (fun r => r == a) newest)[
        (positions (fun r => r == a) newest).length - k]? := by
  simp only [first_previously_processed_index]
  rw [if_neg (by omega)]
  rw [reverse_getElem?_sub _ _ h1 h2]

/-- C1: for a previous export with non-empty rows whose first row (the
Anchor) occurs `repetitionCount` times in the previous export, and a current
export in which the number of positions structurally equal to the Anchor is
at least `repetitionCount`, the program emits exactly the prefix
`currentRows[0 .. cutIndex)`, where `cutIndex` is the entry at index
`m - repetitionCount` of the ascending list of the `m` matching positions
(the `repetitionCount`-th matching position counting backward from the
last match). -/
theorem resolve_emits_new_rows (newest prevRows : List NdaRow)
    (anchor : NdaRow) (rest : List NdaRow) (hprev : prevRows = anchor :: rest)
    (hcount : prevRows.count anchor ≤
      (positions (fun r => r == anchor) newest).length) :
    ∃ cut,
      (positions (fun r => r == anchor) newest)[
        (positions (fun r => r == anchor) newest).length - prevRows.count anchor]?
        = some cut ∧
      resolve newest (some prevRows) = .ok (newest.take cut) := by
  subst hprev
  have hk1 : 1 ≤ (anchor :: rest).count anchor := by
    rw [List.count_cons_self]
    omega
  have hlt : (positions (fun r => r == anchor) newest).length -
      (anchor :: rest).count anchor < (positions (fun r => r == anchor) newest).length := by
    omega
  refine ⟨(positions (fun r => r == anchor) newest).get
      ⟨(positions (fun r => r == anchor) newest).length -
        (anchor :: rest).count anchor, hlt⟩,
    List.getElem?_eq_getElem hlt, ?_⟩
  show (match first_previously_processed_index newest
        (some ⟨anchor, (anchor :: rest).count anchor⟩) with
      | Except.error e => (Except.error e : Except String (List NdaRow))
      | Except.ok idx => Except.ok (select_rows newest idx)) = _
  rw [fppi_of_le newest anchor ((anchor :: rest).count anchor) hk1 hcount,
    List.getElem?_eq_getElem hlt]
  rfl

/-- Witness for C1 at a concrete input: previous export `[A, B]` (anchor `A`
appears once), current export `[C, A, B]` (one match at position 1), so the
cut index is 1 and only `[C]` is emitted. -/
theorem resolve_emits_new_rows_witness :
    ∃ cut,
      (positions (fun r => r == ({ date := "d1", amount := "1", description := "a" } : NdaRow))
        [{ date := "d2", amount := "2", description := "c" },
         { date := "d1", amount := "1", description := "a" },
         { date := "d0", amount := "0", description := "b" }])[
        (positions (fun r => r == ({ date := "d1", amount := "1", description := "a" } : NdaRow))
          [{ date := "d2", amount := "2", description := "c" },
           { date := "d1", amount := "1", description := "a" },
           { date := "d0", amount := "0", description := "b" }]).length -
        ([{ date := "d1", amount := "1", description := "a" },
          { date := "d0", amount := "0", description := "b" }] : List NdaRow).count
          { date := "d1", amount := "1", description := "a" }]?
        = some cut ∧
      resolve
        [{ date := "d2", amount := "2", description := "c" },
         { date := "d1", amount := "1", description := "a" },
         { date := "d0", amount := "0", description := "b" }]
        (some [{ date := "d1", amount := "1", description := "a" },
               { date := "d0", amount := "0", description := "b" }])
        = .ok (List.take cut
            [{ date := "d2", amount := "2", description := "c" },
             { date := "d1", amount := "1", description := "a" },
             { date := "d0", amount := "0", description := "b" }]) :=
  resolve_emits_new_rows
    [{ date := "d2", amount := "2", description := "c" },
     { date := "d1", amount := "1", description := "a" },
     { date := "d0", amount := "0", description := "b" }]
    [{ date := "d1", amount := "1", description := "a" },
     { date := "d0", amount := "0", description := "b" }]
    { date := "d1", amount := "1", description := "a" }
    [{ date := "d0", amount := "0", description := "b" }]
    rfl (by decide)

/-- C2: for a previous export with non-empty rows, when the current export
contains strictly fewer positions structurally equal to the Anchor than the
Anchor's occurrence count in the previous export, the run fails with an
error and emits no transactions. -/
theorem process_gap_fails (newest prevRows : List NdaRow)
    (anchor : NdaRow) (rest : List NdaRow) (hprev : prevRows = anchor :: rest)
    (hcount : (positions (fun r => r == anchor) newest).length <
      prevRows.count anchor) :
    ∃ msg, process newest (some prevRows) = .error msg := by
  subst hprev
  refine ⟨"Aborting due to non-overlapping transactions in main and previous CSV files.", ?_⟩
  simp only [process, resolve, prev_file_trx, first_previously_processed_index]
  rw [if_pos hcount]
  rfl

/-- Witness for C2 at a concrete input: the previous export's anchor appears
twice there but only once in the current export, so the run aborts. -/
theorem process_gap_fails_witness :
    ∃ msg, process
      [{ date := "d2", amount := "2", description := "c" },
       { date := "d1", amount := "1", description := "a" }]
      (some [{ date := "d1", amount := "1", description := "a" },
             { date := "d1", amount := "1", description := "a" }])
      = .error msg :=
  process_gap_fails
    [{ date := "d2", amount := "2", description := "c" },
     { date := "d1", amount := "1", description := "a" }]
    [{ date := "d1", amount := "1", description := "a" },
     { date := "d1", amount := "1", description := "a" }]
    { date := "d1", amount := "1", description := "a" }
    [{ date := "d1", amount := "1", description := "a" }]
    rfl (by decide)

/-- C3: with the previous export's rows and the current export's rows equal
to the same non-empty sequence (identical files, full overlap), the resolver
succeeds and emits zero rows. -/
theorem resolve_identical_inputs (rows : List NdaRow) (h : rows ≠ []) :
    resolve rows (some rows) = .ok [] := by
  obtain ⟨a, t, rfl⟩ := List.exists_cons_of_ne_nil h
  have hk1 : 1 ≤ (a :: t).count a := by
    rw [List.count_cons_self]
    omega
  have hlen : (positions (fun r => r == a) (a :: t)).length = (a :: t).count a := by
    rw [positions_length, List.count_eq_countP]
  have hpos : positions (fun r => r == a) (a :: t) =
      0 :: (positions (fun r => r == a) t).map (· + 1) :=
    positions_cons_pos _ _ _ (by simp)
  show (match first_previously_processed_index (a :: t)
        (some ⟨a, (a :: t).count a⟩) with
      | Except.error e => (Except.error e : Except String (List NdaRow))
      | Except.ok idx => Except.ok (select_rows (a :: t) idx)) = _
  rw [fppi_of_le (a :: t) a ((a :: t).count a) hk1 (le_of_eq hlen.symm)]
  have hidx : (positions (fun r => r == a) (a :: t)).length - (a :: t).count a = 0 := by
    omega
  rw [hidx, hpos]
  simp [select_rows]

/-- Witness for C3 at a concrete non-empty row list. -/
theorem resolve_identical_inputs_witness :
    resolve [{ date := "d1", amount := "1", description := "a" }]
      (some [{ date := "d1", amount := "1", description := "a" }]) = .ok [] :=
  resolve_identical_inputs [{ date := "d1", amount := "1", description := "a" }]
    (by decide)

/-- C4: with no previous export for the account, the whole current export is
emitted: every row, in unmodified source order, mapped 1:1 to the output
schema. -/
theorem process_no_previous (newest : List NdaRow) :
    process newest none = .ok (newest.map to_ynab) := rfl

/-- Witness for C4 at a concrete input. -/
theorem process_no_previous_witness :
    process [{ date := "d1", amount := "1", description := "a" }] none =
      .ok ([{ date := "d1", amount := "1", description := "a" }].map to_ynab) :=
  process_no_previous [{ date := "d1", amount := "1", description := "a" }]

/-- C5: when a previous export file exists but yields zero usable rows, the
run fails with an error instead of producing output. -/
theorem process_empty_previous_fails (newest : List NdaRow) :
    ∃ msg, process newest (some []) = .error msg :=
  ⟨"previous file does not contain any valid rows", rfl⟩

/-- C6: the export reader returns, in source row order, exactly the rows
that deserialize against the schema and whose posting date differs from the
sentinel `"Invalid date"`: the output is an order-preserving subsequence of
the successfully parsed rows, a row is in the output exactly when it parsed
and is not sentinel-dated, every non-sentinel parsed row is kept with its
full multiplicity, and no sentinel-dated row is ever returned (so such a row
can neither be emitted nor serve as the anchor). -/
theorem read_nda_csv_spec (parsed : List (Option NdaRow)) :
    (read_nda_csv parsed).Sublist (parsed.filterMap id) ∧
    (∀ r : NdaRow, r ∈ read_nda_csv parsed ↔
      some r ∈ parsed ∧ r.date ≠ "Invalid date") ∧
    (∀ r : NdaRow, r.date ≠ "Invalid date" →
      (read_nda_csv parsed).count r = (parsed.filterMap id).count r) ∧
    (∀ r ∈ read_nda_csv parsed, r.date ≠ "Invalid date") := by
  refine ⟨List.filter_sublist _, ?_, ?_, ?_⟩
  · intro r
    simp [read_nda_csv, List.mem_filter]
  · intro r hr
    exact List.count_filter (by simp [hr])
  · intro r hr
    have h2 := (List.mem_filter.mp hr).2
    simpa using h2

/-- Witness for C6 at a concrete input with one parse failure, one sentinel
row and one good row. -/
theorem read_nda_csv_spec_witness :
    (read_nda_csv [none, some { date := "Invalid date", amount := "9", description := "h" },
        some { date := "d1", amount := "1", description := "a" }]).Sublist
      (([none, some { date := "Invalid date", amount := "9", description := "h" },
        some { date := "d1", amount := "1", description := "a" }]).filterMap id) ∧
    (∀ r : NdaRow, r ∈ read_nda_csv [none,
        some { date := "Invalid date", amount := "9", description := "h" },
        some { date := "d1", amount := "1", description := "a" }] ↔
      some r ∈ [none, some { date := "Invalid date", amount := "9", description := "h" },
        some { date := "d1", amount := "1", description := "a" }] ∧
        r.date ≠ "Invalid date") ∧
    (∀ r : NdaRow, r.date ≠ "Invalid date" →
      (read_nda_csv [none, some { date := "Invalid date", amount := "9", description := "h" },
        some { date := "d1", amount := "1", description := "a" }]).count r =
      (([none, some { date := "Invalid date", amount := "9", description := "h" },
        some { date := "d1", amount := "1", description := "a" }]).filterMap id).count r) ∧
    (∀ r ∈ read_nda_csv [none,
        some { date := "Invalid date", amount := "9", description := "h" },
        some { date := "d1", amount := "1", description := "a" }],
      r.date ≠ "Invalid date") :=
  read_nda_csv_spec [none, some { date := "Invalid date", amount := "9", description := "h" },
    some { date := "d1", amount := "1", description := "a" }]

/-- C8: each surviving record maps to exactly
`{date, payee = description, memo = "", amount}`; dates and amounts pass
through unmodified, in order, one output row per input row. -/
theorem write_ynab_rows_spec (rows : List NdaRow) :
    (write_ynab_rows rows).length = rows.length ∧
    (∀ r : NdaRow, to_ynab r =
      { date := r.date, payee := r.description, memo := "", amount := r.amount }) ∧
    (write_ynab_rows rows).map YnabRow.date = rows.map NdaRow.date ∧
    (write_ynab_rows rows).map YnabRow.payee = rows.map NdaRow.description ∧
    (write_ynab_rows rows).map YnabRow.amount = rows.map NdaRow.amount ∧
    ∀ y ∈ write_ynab_rows rows, y.memo = "" := by
  refine ⟨by simp [write_ynab_rows], fun r => rfl, ?_, ?_, ?_, ?_⟩ <;>
    simp [write_ynab_rows, to_ynab, List.map_map, Function.comp]

/-- C10: with a non-empty previous export, the previous-file analysis yields
`repetitions = count ≥ 1` (so the `usize` subtraction `repetitions - 1`
cannot underflow), and whenever the match-count check passes, the lookup at
offset `repetitions - 1` of the reversed match positions yields a cut index
strictly below the current row count, so the slice
`newest_rows[0..idx]` is in bounds. -/
theorem cut_index_in_bounds (newest prevRows : List NdaRow)
    (anchor : NdaRow) (rest : List NdaRow) (hprev : prevRows = anchor :: rest) :
    prev_file_trx prevRows = .ok ⟨anchor, prevRows.count anchor⟩ ∧
    1 ≤ prevRows.count anchor ∧
    (prevRows.count anchor ≤ (positions (fun r => r == anchor) newest).length →
      ∃ idx,
        first_previously_processed_index newest
          (some ⟨anchor, prevRows.count anchor⟩) = .ok (some idx) ∧
        idx < newest.length) := by
  subst hprev
  refine ⟨rfl, ?_, ?_⟩
  · rw [List.count_cons_self]
    omega
  · intro hle
    have hk1 : 1 ≤ (anchor :: rest).count anchor := by
      rw [List.count_cons_self]
      omega
    have hlt : (positions (fun r => r == anchor) newest).length -
        (anchor :: rest).count anchor < (positions (fun r => r == anchor) newest).length := by
      omega
    refine ⟨(positions (fun r => r == anchor) newest).get
        ⟨(positions (fun r => r == anchor) newest).length -
          (anchor :: rest).count anchor, hlt⟩, ?_, ?_⟩
    · rw [fppi_of_le newest anchor _ hk1 hle, List.getElem?_eq_getElem hlt]
      rfl
    · exact positions_mem_lt _ newest _ (List.getElem_mem hlt)

/-- Witness for C10 at a concrete input. -/
theorem cut_index_in_bounds_witness :
    prev_file_trx [{ date := "d1", amount := "1", description := "a" }] =
      .ok ⟨{ date := "d1", amount := "1", description := "a" },
        ([{ date := "d1", amount := "1", description := "a" }] : List NdaRow).count
          { date := "d1", amount := "1", description := "a" }⟩ ∧
    1 ≤ ([{ date := "d1", amount := "1", description := "a" }] : List NdaRow).count
      { date := "d1", amount := "1", description := "a" } ∧
    (([{ date := "d1", amount := "1", description := "a" }] : List NdaRow).count
        { date := "d1", amount := "1", description := "a" } ≤
      (positions (fun r => r == ({ date := "d1", amount := "1", description := "a" } : NdaRow))
        [{ date := "d2", amount := "2", description := "c" },
         { date := "d1", amount := "1", description := "a" }]).length →
      ∃ idx,
        first_previously_processed_index
          [{ date := "d2", amount := "2", description := "c" },
           { date := "d1", amount := "1", description := "a" }]
          (some ⟨{ date := "d1", amount := "1", description := "a" },
            ([{ date := "d1", amount := "1", description := "a" }] : List NdaRow).count
              { date := "d1", amount := "1", description := "a" }⟩) = .ok (some idx) ∧
        idx < ([{ date := "d2", amount := "2", description := "c" },
          { date := "d1", amount := "1", description := "a" }] : List NdaRow).length) :=
  cut_index_in_bounds
    [{ date := "d2", amount := "2", description := "c" },
     { date := "d1", amount := "1", description := "a" }]
    [{ date := "d1", amount := "1", description := "a" }]
    { date := "d1", amount := "1", description := "a" } [] rfl

/-- A parsed export timestamp (chrono `NaiveDateTime`), as far as the
program uses it: the calendar fields. -/
structure Ts where
  year : Nat
  month : Nat
  day : Nat
  hour : Nat
  minute : Nat
  second : Nat
  deriving DecidableEq, Repr

/-- Chronological key: the fields packed lexicographically with strict
per-field radixes.  On calendar-valid timestamps (month ≤ 12, day ≤ 31,
hour ≤ 23, minute ≤ 59, second ≤ 60) comparing keys agrees with chrono's
`NaiveDateTime` ordering. -/
def Ts.key (t : Ts) : Nat :=
  ((((t.year * 13 + t.month) * 32 + t.day) * 24 + t.hour) * 60 + t.minute) * 61 + t.second

/-- `struct ParsedFileName` in `main.rs`.  The `path` field, a filesystem
handle used only to re-open the same file, is not modelled. -/
structure ParsedFileName where
  file_name : List Char
  date : Ts
  iban : List Char
  deriving DecidableEq, Repr

/-- `matches.sort_by(|a, b| b.date.cmp(&a.date))` (`main.rs` line 112):
stable sort by parsed date, newest first. -/
def sortByDateDesc (ms : List ParsedFileName) : List ParsedFileName :=
  ms.mergeSort (fun a b => decide (b.date.key ≤ a.date.key))

/-- Export selection (`main.rs` lines 112-123): the newest file is the head
of the sorted list (an error when no file matched), and the previous file is
the first entry after it (`.skip(1).find(..)`) with the same IBAN. -/
def select_exports (ms : List ParsedFileName) :
    Except String (ParsedFileName × Option ParsedFileName) :=
  match sortByDateDesc ms with
  | [] => .error "Could not find any matching files"
  | newest_file :: rest =>
    .ok (newest_file, rest.find? (fun m => m.iban == newest_file.iban))

/-- C7: selection from the set of successfully parsed file names: an empty
set is a fatal error; otherwise the current export has maximal timestamp
among all entries, and the previous export is an entry among the remaining
ones (the sorted list without the current head, a permutation complement of
the current export in the input) with the same account id and maximal
timestamp among those, absent exactly when no remaining entry shares the
account id. -/
theorem select_exports_spec (ms : List ParsedFileName) :
    (ms = [] → select_exports ms = .error "Could not find any matching files") ∧
    (ms ≠ [] → ∃ newest prev rest,
      select_exports ms = .ok (newest, prev) ∧
      (newest :: rest).Perm ms ∧
      (∀ m ∈ ms, m.date.key ≤ newest.date.key) ∧
      (prev = none → ∀ m ∈ rest, m.iban ≠ newest.iban) ∧
      (∀ p, prev = some p → p.iban = newest.iban ∧ p ∈ rest ∧
        ∀ m ∈ rest, m.iban = newest.iban → m.date.key ≤ p.date.key)) := by
  have hperm : (sortByDateDesc ms).Perm ms := List.mergeSort_perm ms _
  have hsorted : (sortByDateDesc ms).Pairwise
      (fun a b => decide (b.date.key ≤ a.date.key) = true) :=
    List.sorted_mergeSort
      (fun a b c hab hbc => by
        simp only [decide_eq_true_eq] at hab hbc ⊢
        omega)
      (fun a b => by
        simpa [Bool.or_eq_true, decide_eq_true_eq] using
          Nat.le_total b.date.key a.date.key)
      ms
  constructor
  · intro h
    subst h
    simp [select_exports, sortByDateDesc]
  · intro h
    have hne : sortByDateDesc ms ≠ [] := by
      intro hnil
      exact h ((hnil ▸ hperm).symm.eq_nil)
    obtain ⟨newest, rest, hsort⟩ := List.exists_cons_of_ne_nil hne
    have hp : (newest :: rest).Perm ms := hsort ▸ hperm
    rw [hsort] at hsorted
    have htail : ∀ b ∈ rest, b.date.key ≤ newest.date.key := by
      intro b hb
      have := (List.pairwise_cons.mp hsorted).1 b hb
      simpa using this
    refine ⟨newest, rest.find? (fun m => m.iban == newest.iban), rest, ?_, hp, ?_, ?_, ?_⟩
    · simp [select_exports, hsort]
    · intro m hm
      rcases List.mem_cons.mp (hp.symm.mem_iff.mp hm) with rfl | hmr
      · exact Nat.le_refl _
      · exact htail m hmr
    · intro hnone m hm hib
      have := List.find?_eq_none.mp hnone m hm
      simp [hib] at this
    · intro p hfind
      obtain ⟨hpb, as, bs, hrest, hnotas⟩ := List.find?_eq_some.mp hfind
      have hpiban : p.iban = newest.iban := by simpa using hpb
      have hpmem : p ∈ rest := by
        rw [hrest]
        exact List.mem_append.mpr (Or.inr (List.mem_cons_self _ _))
      refine ⟨hpiban, hpmem, ?_⟩
      intro m hm hmib
      have hrsorted : rest.Pairwise (fun a b => decide (b.date.key ≤ a.date.key) = true) :=
        (List.pairwise_cons.mp hsorted).2
      rw [hrest] at hrsorted hm
      rcases List.mem_append.mp hm with hma | hmp
      · have := hnotas m hma
        simp [hmib] at this
      · rcases List.mem_cons.mp hmp with rfl | hmbs
        · exact Nat.le_refl _
        · have h2 := (List.pairwise_append.mp hrsorted).2.1
          have h3 := (List.pairwise_cons.mp h2).1 m hmbs
          simpa using h3

/-- A sample parsed file entry, used by the selection witness. -/
def sampleFile : ParsedFileName :=
  { file_name := "a".data,
    date := { year := 2020, month := 1, day := 2, hour := 3, minute := 4, second := 5 },
    iban := "i".data }

/-- Witness for C7 at a concrete one-file input. -/
theorem select_exports_spec_witness :
    (([sampleFile] : List ParsedFileName) = [] →
      select_exports [sampleFile] = .error "Could not find any matching files") ∧
    (([sampleFile] : List ParsedFileName) ≠ [] → ∃ newest prev rest,
      select_exports [sampleFile] = .ok (newest, prev) ∧
      (newest :: rest).Perm [sampleFile] ∧
      (∀ m ∈ ([sampleFile] : List ParsedFileName), m.date.key ≤ newest.date.key) ∧
      (prev = none → ∀ m ∈ rest, m.iban ≠ newest.iban) ∧
      (∀ p, prev = some p → p.iban = newest.iban ∧ p ∈ rest ∧
        ∀ m ∈ rest, m.iban = newest.iban → m.date.key ≤ p.date.key)) :=
  select_exports_spec [sampleFile]

/-! ### File-name regex and timestamp parsing

The regex in `main.rs` line 89 is
`.+ (FI\d{2} \d{4} \d{4} \d{4} \d{2}) - (.+)\.csv`, searched over the file
name with the regex crate's leftmost-first semantics (earliest match start,
then preference order: greedy `.+` tries longer alternatives first).  The
fixed-shape subpatterns are modelled as character-class masks; `\d` is
modelled as an ASCII decimal digit and `.` matches every character except a
newline. -/

/-- A single-character regex item: a literal character or `\d`. -/
inductive RChar where
  | lit (c : Char)
  | digit
  deriving DecidableEq, Repr

/-- Whether character `c` matches the item. -/
def matchClass : RChar → Char → Bool
  | .lit c0, c => c0 == c
  | .digit, c => c.isDigit

/-- Whether `cs` matches the fixed-length mask exactly. -/
def matchesMask (mask : List RChar) (cs : List Char) : Bool :=
  (cs.length == mask.length) && (List.zipWith matchClass mask cs).all id

/-- The mask of capture group 1, `FI\d{2} \d{4} \d{4} \d{4} \d{2}`
(a 22-character Finnish IBAN). -/
def ibanMask : List RChar :=
  [.lit 'F', .lit 'I', .digit, .digit, .lit ' ',
   .digit, .digit, .digit, .digit, .lit ' ',
   .digit, .digit, .digit, .digit, .lit ' ',
   .digit, .digit, .digit, .digit, .lit ' ',
   .digit, .digit]

/-- Capture group 1 of the file-name regex. -/
def matchesIban (cs : List Char) : Bool :=
  matchesMask ibanMask cs

/-- The largest `j < n` satisfying `p`, if any: models the backtracking
preference order of a greedy subexpression (longest alternative first). -/
def lastIdx (p : Nat → Bool) : Nat → Option Nat
  | 0 => none
  | n + 1 => if p n then some n else lastIdx p n

/-- The `pat.length` characters of `cs` starting at index `i` are exactly
`pat`. -/
def sliceEq (cs : List Char) (i : Nat) (pat : List Char) : Bool :=
  decide ((cs.drop i).take pat.length = pat)

/-- Greedy `(.+)\.csv` matched against `rest`: the longest nonempty
newline-free prefix of `rest` followed immediately by `".csv"`.  Returns
the length of the prefix (capture group 2). -/
def group2Len (rest : List Char) : Option Nat :=
  lastIdx
    (fun i => decide (1 ≤ i) && (rest.take i).all (fun c => decide (c ≠ '\n')) &&
      sliceEq rest i ['.', 'c', 's', 'v'])
    (rest.length + 1)

/-- Index `j` of `cs` can be the space before the IBAN in a match of the
regex: at least one non-newline character directly precedes it (consumed by
`.+`; regex `.` does not match a newline), `cs[j]` is the space, the next
22 characters are the IBAN, then `" - "`, then a nonempty second group
followed by `".csv"`. -/
def validAnchor (cs : List Char) (j : Nat) : Bool :=
  decide (1 ≤ j) &&
  (match cs[j - 1]? with
   | some c => decide (c ≠ '\n')
   | none => false) &&
  (cs[j]? == some ' ') &&
  matchesIban ((cs.drop (j + 1)).take 22) &&
  sliceEq cs (j + 23) [' ', '-', ' '] &&
  (group2Len (cs.drop (j + 26))).isSome

/-- The leftmost position from which `.+` can reach anchor `j`: directly
after the last newline before `j`, or the start of the string. -/
def startPos (cs : List Char) (j : Nat) : Nat :=
  match lastIdx (fun i => cs[i]? == some '\n') j with
  | some n => n + 1
  | none => 0

/-- The two capture groups `Regex::captures` yields for the file-name regex
under leftmost-first semantics: the overall match starts as early as
possible; among the anchors sharing that earliest start the greedy `.+`
prefers the last; greedy `(.+)` then extends group 2 as far as possible. -/
def regexCaptures (cs : List Char) : Option (List Char × List Char) :=
  match (((List.range cs.length).filter (fun j => validAnchor cs j)).map
      (fun j => startPos cs j)).min? with
  | none => none
  | some s =>
    match lastIdx (fun j => validAnchor cs j && (startPos cs j == s)) cs.length with
    | none => none
    | some j =>
      match group2Len (cs.drop (j + 26)) with
      | none => none
      | some glen => some ((cs.drop (j + 1)).take 22, (cs.drop (j + 26)).take glen)

/-- Numeric value of an ASCII digit. -/
def digitVal (c : Char) : Nat := c.toNat - 48

/-- Proleptic-Gregorian leap year. -/
def isLeapYear (y : Nat) : Bool :=
  y % 4 == 0 && (y % 100 != 0 || y % 400 == 0)

/-- Number of days in month `m` of year `y`. -/
def daysInMonth (y m : Nat) : Nat :=
  if m = 2 then (if isLeapYear y then 29 else 28)
  else if m = 4 ∨ m = 6 ∨ m = 9 ∨ m = 11 then 30
  else 31

/-- chrono accepts the parsed fields only when they form a real calendar
date and time of day (chrono's leap-second `60` is not modelled). -/
def validDate (t : Ts) : Bool :=
  decide (1 ≤ t.month) && decide (t.month ≤ 12) &&
  decide (1 ≤ t.day) && decide (t.day ≤ daysInMonth t.year t.month) &&
  decide (t.hour ≤ 23) && decide (t.minute ≤ 59) && decide (t.second ≤ 59)

/-- The mask of chrono format `%Y-%m-%d %H.%M.%S` (4-digit year, 2-digit
fields; chrono's tolerance for short or signed numbers is not modelled). -/
def tsLongMask : List RChar :=
  [.digit, .digit, .digit, .digit, .lit '-', .digit, .digit, .lit '-',
   .digit, .digit, .lit ' ', .digit, .digit, .lit '.', .digit, .digit,
   .lit '.', .digit, .digit]

/-- The mask of chrono format `%Y.%m.%d %H.%M`. -/
def tsShortMask : List RChar :=
  [.digit, .digit, .digit, .digit, .lit '.', .digit, .digit, .lit '.',
   .digit, .digit, .lit ' ', .digit, .digit, .lit '.', .digit, .digit]

/-- The number denoted by the `len` digits of `cs` starting at index `i`. -/
def readNum (cs : List Char) (i len : Nat) : Nat :=
  ((cs.drop i).take len).foldl (fun acc c => acc * 10 + digitVal c) 0

/-- chrono `NaiveDateTime::parse_from_str` with `"%Y-%m-%d %H.%M.%S"`: the
whole input must match the mask and the fields must form a real date and
time. -/
def parseTsLong (cs : List Char) : Option Ts :=
  if matchesMask tsLongMask cs then
    let t : Ts :=
      { year := readNum cs 0 4, month := readNum cs 5 2, day := readNum cs 8 2,
        hour := readNum cs 11 2, minute := readNum cs 14 2, second := readNum cs 17 2 }
    if validDate t then some t else none
  else none

/-- chrono `NaiveDateTime::parse_from_str` with `"%Y.%m.%d %H.%M"`; the
absent second defaults to 0. -/
def parseTsShort (cs : List Char) : Option Ts :=
  if matchesMask tsShortMask cs then
    let t : Ts :=
      { year := readNum cs 0 4, month := readNum cs 5 2, day := readNum cs 8 2,
        hour := readNum cs 11 2, minute := readNum cs 14 2, second := 0 }
    if validDate t then some t else none
  else none

/-- The date parsing of `main.rs` lines 100-102: try `%Y-%m-%d %H.%M.%S`
first, fall back to `%Y.%m.%d %H.%M`. -/
def parse_export_date (cs : List Char) : Option Ts :=
  match parseTsLong cs with
  | some t => some t
  | none => parseTsShort cs

/-- The per-file closure of `main.rs` lines 93-108: run the regex on the
file name, take capture 1 as the IBAN and parse capture 2 as the export
date; any failure silently excludes the file from consideration. -/
def parse_file_name (file_name : List Char) : Option ParsedFileName :=
  match regexCaptures file_name with
  | none => none
  | some (iban, date_match) =>
    match parse_export_date date_match with
    | none => none
    | some date => some { file_name := file_name, date := date, iban := iban }

theorem lastIdx_eq_some (p : Nat → Bool) (n j : Nat) (hj : j < n) (hp : p j = true)
    (hmax : ∀ m, j < m → m < n → p m = false) : lastIdx p n = some j := by
  induction n with
  | zero => omega
  | succ n ih =>
    by_cases hn : j = n
    · subst hn
      simp [lastIdx, hp]
    · have hpn : p n = false := hmax n (by omega) (by omega)
      simp only [lastIdx, hpn, Bool.false_eq_true, if_false]
      exact ih (by omega) (fun m h1 h2 => hmax m h1 (by omega))

theorem lastIdx_eq_none (p : Nat → Bool) (n : Nat)
    (h : ∀ m, m < n → p m = false) : lastIdx p n = none := by
  induction n with
  | zero => rfl
  | succ n ih =>
    simp only [lastIdx, h n (by omega), Bool.false_eq_true, if_false]
    exact ih (fun m hm => h m (by omega))

theorem matchesMask_length (mask : List RChar) (cs : List Char)
    (h : matchesMask mask cs = true) : cs.length = mask.length := by
  have h1 := (Bool.and_eq_true _ _).mp h
  exact Nat.beq_eq ▸ (by simpa using h1.1)

theorem zipWith_class_spec (mask : List RChar) :
    ∀ (cs : List Char), (List.zipWith matchClass mask cs).all id = true →
    ∀ (k : Nat) (m : RChar) (c : Char), mask[k]? = some m → cs[k]? = some c →
      matchClass m c = true := by
  induction mask with
  | nil =>
    intro cs _ k m c hm _
    simp at hm
  | cons m0 mrest ih =>
    intro cs hall k m c hm hc
    cases cs with
    | nil => simp at hc
    | cons c0 crest =>
      simp only [List.zipWith_cons_cons, List.all_cons, Bool.and_eq_true, id] at hall
      cases k with
      | zero =>
        simp only [List.getElem?_cons_zero, Option.some.injEq] at hm hc
        subst hm
        subst hc
        exact hall.1
      | succ k =>
        simp only [List.getElem?_cons_succ] at hm hc
        exact ih crest hall.2 k m c hm hc

theorem matchesMask_class (mask : List RChar) (cs : List Char)
    (h : matchesMask mask cs = true) :
    ∀ (k : Nat) (c : Char), cs[k]? = some c →
      ∃ m, mask[k]? = some m ∧ matchClass m c = true := by
  intro k c hc
  have hlen := matchesMask_length mask cs h
  have hk : k < cs.length := by
    by_contra hk
    rw [List.getElem?_eq_none (by omega)] at hc
    cases hc
  have hm : k < mask.length := by omega
  refine ⟨mask[k], List.getElem?_eq_getElem hm, ?_⟩
  have h2 := (Bool.and_eq_true _ _).mp h
  exact zipWith_class_spec mask cs h2.2 k mask[k] c (List.getElem?_eq_getElem hm) hc

theorem matchesMask_avoid (mask : List RChar) (cs : List Char) (bad : Char) (d : Nat)
    (h : matchesMask mask cs = true)
    (ha : ∀ m ∈ mask.drop d, matchClass m bad = false) :
    ∀ (k : Nat), d ≤ k → ∀ (c : Char), cs[k]? = some c → c ≠ bad := by
  intro k hdk c hc hceq
  obtain ⟨m, hm, hmc⟩ := matchesMask_class mask cs h k c hc
  rw [hceq] at hmc
  have hmem : m ∈ mask.drop d := by
    have : (mask.drop d)[k - d]? = some m := by
      rw [List.getElem?_drop]
      rwa [show d + (k - d) = k by omega]
    exact List.getElem?_mem this
  rw [ha m hmem] at hmc
  cases hmc

theorem matchesMask_avoid_mem (mask : List RChar) (cs : List Char) (bad : Char)
    (h : matchesMask mask cs = true)
    (ha : ∀ m ∈ mask, matchClass m bad = false) : bad ∉ cs := by
  intro hmem
  obtain ⟨k, hk⟩ := List.mem_iff_getElem?.mp hmem
  exact matchesMask_avoid mask cs bad 0 h (by simpa using ha) k (Nat.zero_le k) bad hk rfl

theorem matchesIban_head (xs : List Char) (h : matchesIban xs = true) :
    xs[0]? = some 'F' := by
  have hlen := matchesMask_length ibanMask xs h
  have h0 : 0 < xs.length := by rw [hlen]; decide
  obtain ⟨c, hc⟩ : ∃ c, xs[0]? = some c := ⟨xs[0], List.getElem?_eq_getElem h0⟩
  obtain ⟨m, hm, hmc⟩ := matchesMask_class ibanMask xs h 0 c hc
  have : m = RChar.lit 'F' := by
    simp only [show (ibanMask[0]? = some (RChar.lit 'F')) from rfl, Option.some.injEq] at hm
    exact hm.symm
  subst this
  simp only [matchClass, beq_iff_eq] at hmc
  rw [hc, hmc]

theorem parseTsLong_mask (cs : List Char) (t : Ts) (h : parseTsLong cs = some t) :
    matchesMask tsLongMask cs = true := by
  by_cases hm : matchesMask tsLongMask cs
  · exact hm
  · simp [parseTsLong, hm] at h

theorem parseTsShort_mask (cs : List Char) (t : Ts) (h : parseTsShort cs = some t) :
    matchesMask tsShortMask cs = true := by
  by_cases hm : matchesMask tsShortMask cs
  · exact hm
  · simp [parseTsShort, hm] at h

theorem parse_export_date_mask (cs : List Char) (t : Ts)
    (h : parse_export_date cs = some t) :
    matchesMask tsLongMask cs = true ∨ matchesMask tsShortMask cs = true := by
  unfold parse_export_date at h
  cases hL : parseTsLong cs with
  | some s => exact Or.inl (parseTsLong_mask cs s hL)
  | none =>
    rw [hL] at h
    exact Or.inr (parseTsShort_mask cs t h)

theorem ts_length (cs : List Char) (t : Ts) (h : parse_export_date cs = some t) :
    cs.length = 19 ∨ cs.length = 16 := by
  rcases parse_export_date_mask cs t h with hm | hm
  · exact Or.inl (matchesMask_length _ _ hm)
  · exact Or.inr (matchesMask_length _ _ hm)

theorem ts_avoid (cs : List Char) (t : Ts) (bad : Char)
    (h : parse_export_date cs = some t)
    (h1 : ∀ m ∈ tsLongMask, matchClass m bad = false)
    (h2 : ∀ m ∈ tsShortMask, matchClass m bad = false) : bad ∉ cs := by
  rcases parse_export_date_mask cs t h with hm | hm
  · exact matchesMask_avoid_mem _ _ _ hm h1
  · exact matchesMask_avoid_mem _ _ _ hm h2

theorem ts_no_newline (cs : List Char) (t : Ts) (h : parse_export_date cs = some t) :
    '\n' ∉ cs :=
  ts_avoid cs t '\n' h (by decide) (by decide)

theorem ts_no_F (cs : List Char) (t : Ts) (h : parse_export_date cs = some t) :
    'F' ∉ cs :=
  ts_avoid cs t 'F' h (by decide) (by decide)

theorem iban_no_newline (xs : List Char) (h : matchesIban xs = true) : '\n' ∉ xs :=
  matchesMask_avoid_mem ibanMask xs '\n' h (by decide)

theorem group2Len_exact (ts : List Char) (h1 : 1 ≤ ts.length) (hn : '\n' ∉ ts) :
    group2Len (ts ++ ['.', 'c', 's', 'v']) = some ts.length := by
  unfold group2Len
  have hlen : (ts ++ ['.', 'c', 's', 'v']).length = ts.length + 4 := by simp
  rw [hlen]
  apply lastIdx_eq_some
  · omega
  · have hd : (ts ++ ['.', 'c', 's', 'v']).take ts.length = ts := List.take_left ts _
    have hdrop : (ts ++ ['.', 'c', 's', 'v']).drop ts.length = ['.', 'c', 's', 'v'] :=
      List.drop_left ts _
    simp only [sliceEq, hd, hdrop, Bool.and_eq_true, decide_eq_true_eq, List.all_eq_true]
    refine ⟨⟨h1, ?_⟩, rfl⟩
    intro c hc
    exact fun hceq => hn (hceq ▸ hc)
  · intro m hm1 hm2
    have hne : ((ts ++ ['.', 'c', 's', 'v']).drop m).take 4 ≠ ['.', 'c', 's', 'v'] := by
      intro heq
      have hlen2 := congrArg List.length heq
      simp only [List.length_take, List.length_drop, List.length_append] at hlen2
      simp only [List.length_cons, List.length_nil] at hlen2
      omega
    have hC : sliceEq (ts ++ ['.', 'c', 's', 'v']) m ['.', 'c', 's', 'v'] = false := by
      simp only [sliceEq, List.length_cons, List.length_nil]
      exact decide_eq_false hne
    rw [hC, Bool.and_false]

theorem startPos_eq_zero (cs : List Char) (j : Nat) (h : '\n' ∉ cs) :
    startPos cs j = 0 := by
  unfold startPos
  have hnone : lastIdx (fun i => cs[i]? == some '\n') j = none := by
    apply lastIdx_eq_none
    intro m _
    show (cs[m]? == some '\n') = false
    cases hcm : cs[m]? with
    | none => rfl
    | some c =>
      have hc : c ∈ cs := List.getElem?_mem hcm
      have hcne : c ≠ '\n' := fun hceq => h (hceq ▸ hc)
      simp [hcne]
  rw [hnone]

theorem regexCaptures_of_shape (pre iban ts : List Char) (t : Ts)
    (hpre : pre ≠ []) (hpren : '\n' ∉ pre)
    (hiban : matchesIban iban = true)
    (hts : parse_export_date ts = some t) :
    regexCaptures
      (pre ++ (' ' :: (iban ++ (' ' :: ('-' :: (' ' :: (ts ++ ['.', 'c', 's', 'v']))))))) =
      some (iban, ts) := by
  set S : List Char := ' ' :: ('-' :: (' ' :: (ts ++ ['.', 'c', 's', 'v']))) with hS
  set mid : List Char := iban ++ S with hmid
  set cs : List Char := pre ++ (' ' :: mid) with hcs
  have hIlen : iban.length = 22 := by
    have h := matchesMask_length ibanMask iban hiban
    simpa using h
  have hTlen : ts.length = 19 ∨ ts.length = 16 := ts_length ts t hts
  have hT1 : 1 ≤ ts.length := by omega
  have hTn : '\n' ∉ ts := ts_no_newline ts t hts
  have hTF : 'F' ∉ ts := ts_no_F ts t hts
  have hP1 : 1 ≤ pre.length := by
    cases pre with
    | nil => exact absurd rfl hpre
    | cons a l => simp
  have hcslen : cs.length = pre.length + ts.length + 30 := by
    rw [hcs, hmid, hS]
    simp [hIlen]
    omega
  have hdrop0 : cs.drop pre.length = ' ' :: mid := by
    rw [hcs]
    exact List.drop_left pre _
  have hdrop1 : cs.drop (pre.length + 1) = mid := by
    rw [← List.drop_drop, hdrop0]
    rfl
  have htake22 : (cs.drop (pre.length + 1)).take 22 = iban := by
    rw [hdrop1, hmid]
    exact List.take_left' hIlen
  have hdrop23 : cs.drop (pre.length + 23) = S := by
    have h23 : pre.length + 23 = pre.length + 1 + 22 := by omega
    rw [h23, ← List.drop_drop, hdrop1, hmid]
    exact List.drop_left' hIlen
  have hdrop26 : cs.drop (pre.length + 26) = ts ++ ['.', 'c', 's', 'v'] := by
    have h26 : pre.length + 26 = pre.length + 23 + 3 := by omega
    rw [h26, ← List.drop_drop, hdrop23, hS]
    rfl
  have hg2 : group2Len (cs.drop (pre.length + 26)) = some ts.length := by
    rw [hdrop26]
    exact group2Len_exact ts hT1 hTn
  have hj0idx : cs[pre.length]? = some ' ' := by
    rw [hcs, List.getElem?_append_right (Nat.le_refl _)]
    simp
  have hjm1 : ∃ c, cs[pre.length - 1]? = some c ∧ c ≠ '\n' := by
    have hlt : pre.length - 1 < pre.length := by omega
    refine ⟨pre.get ⟨pre.length - 1, hlt⟩, ?_, ?_⟩
    · rw [hcs, List.getElem?_append_left hlt]
      exact List.getElem?_eq_getElem hlt
    · intro hF
      exact hpren (hF ▸ List.getElem_mem hlt)
  have hnl : '\n' ∉ cs := by
    intro hmem
    rw [hcs] at hmem
    rcases List.mem_append.mp hmem with h | h
    · exact hpren h
    rcases List.mem_cons.mp h with h | h
    · exact absurd h (by decide)
    rw [hmid] at h
    rcases List.mem_append.mp h with h | h
    · exact iban_no_newline iban hiban h
    rw [hS] at h
    rcases List.mem_cons.mp h with h | h
    · exact absurd h (by decide)
    rcases List.mem_cons.mp h with h | h
    · exact absurd h (by decide)
    rcases List.mem_cons.mp h with h | h
    · exact absurd h (by decide)
    rcases List.mem_append.mp h with h | h
    · exact hTn h
    · exact absurd h (by decide)
  have hSF : 'F' ∉ S := by
    rw [hS]
    intro h
    rcases List.mem_cons.mp h with h | h
    · exact absurd h (by decide)
    rcases List.mem_cons.mp h with h | h
    · exact absurd h (by decide)
    rcases List.mem_cons.mp h with h | h
    · exact absurd h (by decide)
    rcases List.mem_append.mp h with h | h
    · exact hTF h
    · exact absurd h (by decide)
  have hnoF : ∀ q : Nat, pre.length + 2 ≤ q → ∀ c : Char, cs[q]? = some c → c ≠ 'F' := by
    intro q hq c hc
    rw [hcs, List.getElem?_append_right (by omega : pre.length ≤ q)] at hc
    have hqk : q - pre.length = (q - pre.length - 1) + 1 := by omega
    rw [hqk, List.getElem?_cons_succ] at hc
    rcases Nat.lt_or_ge (q - pre.length - 1) 22 with hk22 | hk22
    · rw [hmid, List.getElem?_append_left (by rw [hIlen]; omega)] at hc
      exact matchesMask_avoid ibanMask iban 'F' 1 hiban (by decide)
        (q - pre.length - 1) (by omega) c hc
    · rw [hmid, List.getElem?_append_right (by rw [hIlen]; omega)] at hc
      intro hceq
      exact hSF (hceq ▸ List.getElem?_mem hc)
  have hva : validAnchor cs pre.length = true := by
    obtain ⟨c, hc, hcn⟩ := hjm1
    have hslice : sliceEq cs (pre.length + 23) [' ', '-', ' '] = true := by
      simp only [sliceEq, hdrop23, hS]
      rw [decide_eq_true_eq]
      rfl
    have hisS : (group2Len (cs.drop (pre.length + 26))).isSome = true := by
      rw [hg2]
      rfl
    simp only [validAnchor, hc, hj0idx, htake22, hiban, hslice, hisS]
    simp [hP1, hcn]
  have hvafalse : ∀ m, pre.length < m → m < cs.length → validAnchor cs m = false := by
    intro m hm1 hm2
    cases hval : validAnchor cs m with
    | false => rfl
    | true =>
      exfalso
      simp only [validAnchor, Bool.and_eq_true] at hval
      obtain ⟨⟨⟨⟨⟨hA, hB⟩, hC⟩, hD⟩, hE⟩, hF⟩ := hval
      have hhead := matchesIban_head _ hD
      rw [List.getElem?_take_of_lt (by omega : (0:Nat) < 22), List.getElem?_drop] at hhead
      exact hnoF (m + 1) (by omega) 'F' (by simpa using hhead) rfl
  have hj0lt : pre.length < cs.length := by omega
  have hj0mem : pre.length ∈ (List.range cs.length).filter (fun j => validAnchor cs j) :=
    List.mem_filter.mpr ⟨List.mem_range.mpr hj0lt, hva⟩
  have hmin : (((List.range cs.length).filter (fun j => validAnchor cs j)).map
      (fun j => startPos cs j)).min? = some 0 := by
    have h0mem : (0 : Nat) ∈ ((List.range cs.length).filter
        (fun j => validAnchor cs j)).map (fun j => startPos cs j) :=
      List.mem_map.mpr ⟨pre.length, hj0mem, startPos_eq_zero cs pre.length hnl⟩
    refine (List.min?_eq_some_iff (fun a => Nat.le_refl a) (fun a b => ?_)
      (fun a b c => Nat.le_min)).mpr ⟨h0mem, fun b _ => Nat.zero_le b⟩
    rw [Nat.min_def]
    split <;> simp
  have hlast : lastIdx (fun j => validAnchor cs j && (startPos cs j == 0)) cs.length
      = some pre.length := by
    apply lastIdx_eq_some _ _ _ hj0lt
    · show (validAnchor cs pre.length && (startPos cs pre.length == 0)) = true
      rw [hva, startPos_eq_zero cs pre.length hnl]
      rfl
    · intro m h1 h2
      show (validAnchor cs m && (startPos cs m == 0)) = false
      rw [hvafalse m h1 h2]
      rfl
  unfold regexCaptures
  simp only [hmin, hlast, hg2, htake22, hdrop26, group2Len_exact ts hT1 hTn,
    List.take_left]

/-- C9 (amended): for every file name of the form
`<anything> <ACCOUNT-ID> - <TIMESTAMP>.csv` — where `<anything>` is
non-empty and newline-free, ACCOUNT-ID consists of the letters `FI`, two
digits, then four space-separated groups of four digits, then two digits,
and TIMESTAMP parses in one of the two supported datetime formats
(`YYYY.MM.DD HH.MM` or `YYYY-MM-DD HH.MM.SS`) — the parser accepts the file
and extracts that ACCOUNT-ID as the account identifier and that TIMESTAMP
as the export timestamp. -/
theorem parse_file_name_accepts (pre iban ts : List Char) (t : Ts)
    (hpre : pre ≠ []) (hpren : '\n' ∉ pre)
    (hiban : matchesIban iban = true)
    (hts : parse_export_date ts = some t) :
    parse_file_name
      (pre ++ (' ' :: (iban ++ (' ' :: ('-' :: (' ' :: (ts ++ ['.', 'c', 's', 'v']))))))) =
      some
        { file_name :=
            pre ++ (' ' :: (iban ++ (' ' :: ('-' :: (' ' :: (ts ++ ['.', 'c', 's', 'v'])))))),
          date := t, iban := iban } := by
  unfold parse_file_name
  simp only [regexCaptures_of_shape pre iban ts t hpre hpren hiban hts, hts]

/-- Witness for C9 (amended) at a concrete file name
`Tapahtumat FI12 3456 7890 1234 56 - 2023.08.01 14.35.csv`. -/
theorem parse_file_name_accepts_witness :
    parse_file_name
      ("Tapahtumat".data ++ (' ' :: ("FI12 3456 7890 1234 56".data ++
        (' ' :: ('-' :: (' ' :: ("2023.08.01 14.35".data ++ ['.', 'c', 's', 'v']))))))) =
      some
        { file_name :=
            "Tapahtumat".data ++ (' ' :: ("FI12 3456 7890 1234 56".data ++
              (' ' :: ('-' :: (' ' :: ("2023.08.01 14.35".data ++ ['.', 'c', 's', 'v'])))))),
          date := { year := 2023, month := 8, day := 1, hour := 14, minute := 35, second := 0 },
          iban := "FI12 3456 7890 1234 56".data } :=
  parse_file_name_accepts "Tapahtumat".data "FI12 3456 7890 1234 56".data
    "2023.08.01 14.35".data
    { year := 2023, month := 8, day := 1, hour := 14, minute := 35, second := 0 }
    (by decide) (by decide) (by decide) (by decide)

/-- C9 as stated fails: the account id `AB12 3456 7890 1234 56` has the
claimed shape (two letters, two digits, then four space-separated groups of
four digits, then two digits), and `2020.01.01 10.00` parses in a supported
format, yet the program's regex requires the literal letters `FI`, so the
file name is rejected. -/
theorem parse_file_name_two_letters_rejected :
    parse_export_date ("2020.01.01 10.00").data =
      some { year := 2020, month := 1, day := 1, hour := 10, minute := 0, second := 0 } ∧
    parse_file_name ("x AB12 3456 7890 1234 56 - 2020.01.01 10.00.csv").data = none :=
  ⟨by decide, by decide⟩

end Nda2Ynab
